import Mathlib

/-!
Verification development for the ABS request-reconciliation engine.

The definitions below are a shallow embedding of the repository's core:
`app/services/library_matcher.py` (text normalisation and fuzzy scoring) and
`app/services/sync.py` (the sync orchestrator and its run ledger).

Modelling conventions:
* Python strings are Lean `String`s; character-level work is done on
  `List Char` (`String.data`).  Python's `str.lower`, `\w`, `\s` agree with
  the Lean `Char` predicates used here on the ASCII range.
* Python floats are modelled as exact rationals (`ℚ`); every score produced
  by the code is an exact rational, so no rounding behaviour is lost at the
  comparisons the claims exercise.
* The external `rapidfuzz` library (an out-of-repository collaborator) is
  embedded from its documented algorithm: `fuzz.ratio` is the normalised
  indel similarity and `fuzz.token_set_ratio` the set-decomposition variant.
* Database state is a `Store` (requests plus sync-log rows).  A SQLAlchemy
  session is modelled by tracking the pending (session) state through the
  run; `commit` makes the whole pending state durable, exactly as
  `db.session.commit()` flushes every dirty object in the session.
-/

namespace AbsRequest

/-! ## library_matcher.py — text normalisation (`LibraryMatcher.normalize`) -/

/-- A regex word character (`\w`): alphanumeric or underscore. -/
def isWordChar (c : Char) : Bool := c.isAlphanum || c = ('_')

/-- `text.lower()`. -/
def pyLower (s : List Char) : List Char := s.map Char.toLower

/-- `re.sub(r'[^\w\s]', ' ', text)`: each character that is neither a word
character nor whitespace becomes a single space. -/
def subPunct (s : List Char) : List Char :=
  s.map fun c => if !(isWordChar c) && !c.isWhitespace then (' ') else c

/-- `re.sub(r'\s+', ' ', text)`: every maximal run of whitespace becomes one
space. -/
def collapseWS : List Char → List Char
  | [] => []
  | [c] => if c.isWhitespace then [(' ')] else [c]
  | c1 :: c2 :: rest =>
    if c1.isWhitespace && c2.isWhitespace then collapseWS (c2 :: rest)
    else (if c1.isWhitespace then (' ') else c1) :: collapseWS (c2 :: rest)

/-- `text.strip()`: drop leading and trailing whitespace. -/
def stripWS (s : List Char) : List Char :=
  ((s.dropWhile Char.isWhitespace).reverse.dropWhile Char.isWhitespace).reverse

/-- `LibraryMatcher.normalize` on character lists: empty input short-circuits
to the empty string, otherwise lowercase, strip punctuation, collapse
whitespace, strip. -/
def normalizeL (text : List Char) : List Char :=
  if text = [] then []
  else stripWS (collapseWS (subPunct (pyLower text)))

/-- `LibraryMatcher.normalize`. -/
def normalize (text : String) : String := ⟨normalizeL text.data⟩

/-! ## rapidfuzz — `fuzz.ratio` and `fuzz.token_set_ratio`

These embed the external `rapidfuzz` collaborator used by
`LibraryMatcher.score` (the repository pins rapidfuzz, whose `ratio` is the
normalised indel similarity and whose `token_set_ratio` is the classic
set-decomposition token ratio with an early exit when one token set contains
the other). -/

/-- Longest common subsequence length, fuelled for kernel reducibility; the
fuel `s1.length + s2.length` is always sufficient. -/
def lcsLenF : Nat → List Char → List Char → Nat
  | 0, _, _ => 0
  | _ + 1, [], _ => 0
  | _ + 1, _, [] => 0
  | fuel + 1, a :: as, b :: bs =>
    if a = b then lcsLenF fuel as bs + 1
    else max (lcsLenF fuel as (b :: bs)) (lcsLenF fuel (a :: as) bs)

/-- Longest common subsequence length of two character lists. -/
def lcsLen (s1 s2 : List Char) : Nat := lcsLenF (s1.length + s2.length) s1 s2

/-- Indel (insert/delete-only Levenshtein) distance. -/
def indelDist (s1 s2 : List Char) : Nat :=
  s1.length + s2.length - 2 * lcsLen s1 s2

/-- `rapidfuzz.fuzz.ratio` on a 0–100 scale: normalised indel similarity
(`100` for two empty strings, as in rapidfuzz). -/
def fuzzRatioVal (s1 s2 : List Char) : ℚ :=
  if s1.length + s2.length = 0 then 100
  else 100 * (1 - (indelDist s1 s2 : ℚ) / ((s1.length : ℚ) + (s2.length : ℚ)))

/-- `str.split()`: maximal runs of non-whitespace characters. -/
def splitWSAux : List Char → List Char → List (List Char)
  | [], acc => if acc = [] then [] else [acc.reverse]
  | c :: cs, acc =>
    if c.isWhitespace then
      if acc = [] then splitWSAux cs [] else acc.reverse :: splitWSAux cs []
    else splitWSAux cs (c :: acc)

/-- `str.split()` of a character list. -/
def splitWS (s : List Char) : List (List Char) := splitWSAux s []

/-- Lexicographic (codepoint) strict order on tokens, `sorted()`'s order on
Python strings. -/
def tokLt : List Char → List Char → Bool
  | [], [] => false
  | [], _ :: _ => true
  | _ :: _, [] => false
  | a :: as, b :: bs => if a = b then tokLt as bs else decide (a < b)

/-- Insert a token into a lexicographically sorted token list. -/
def insertTok (t : List Char) : List (List Char) → List (List Char)
  | [] => [t]
  | u :: us => if tokLt t u then t :: u :: us else u :: insertTok t us

/-- Sort a token list lexicographically (insertion sort). -/
def sortToks : List (List Char) → List (List Char)
  | [] => []
  | t :: ts => insertTok t (sortToks ts)

/-- Drop adjacent duplicate tokens of a sorted list: together with `sortToks`
this yields `sorted(set(...))`. -/
def dedupAdj : List (List Char) → List (List Char)
  | [] => []
  | [t] => [t]
  | t :: u :: us => if t = u then dedupAdj (u :: us) else t :: dedupAdj (u :: us)

/-- `sorted(set(s.split()))`: the sorted unique tokens of a string. -/
def sortedTokens (s : List Char) : List (List Char) := dedupAdj (sortToks (splitWS s))

/-- `" ".join(tokens)`. -/
def joinSp : List (List Char) → List Char
  | [] => []
  | [t] => t
  | t :: ts => t ++ (' ') :: joinSp ts

/-- `rapidfuzz.fuzz.token_set_ratio` on a 0–100 scale: decompose the two
token sets into intersection and differences; if the intersection is
non-empty and one difference is empty return `100`, otherwise take the best
of the indel ratios between the recombined strings. -/
def tokenSetRatioVal (s1 s2 : List Char) : ℚ :=
  let ta := sortedTokens s1
  let tb := sortedTokens s2
  let sect := ta.filter fun t => tb.any fun u => u = t
  let diffAB := ta.filter fun t => !(tb.any fun u => u = t)
  let diffBA := tb.filter fun t => !(ta.any fun u => u = t)
  if sect ≠ [] ∧ (diffAB = [] ∨ diffBA = []) then 100
  else
    let ab := joinSp diffAB
    let ba := joinSp diffBA
    let sectLen := (joinSp sect).length
    let sectABLen := sectLen + (if sectLen = 0 then 0 else 1) + ab.length
    let sectBALen := sectLen + (if sectLen = 0 then 0 else 1) + ba.length
    let base : ℚ :=
      100 * (1 - (indelDist ab ba : ℚ) / ((sectABLen : ℚ) + (sectBALen : ℚ)))
    if sectLen = 0 then base
    else
      let abRat : ℚ :=
        100 * (1 - ((sectABLen - sectLen : Nat) : ℚ) / ((sectABLen : ℚ) + (sectLen : ℚ)))
      let baRat : ℚ :=
        100 * (1 - ((sectBALen - sectLen : Nat) : ℚ) / ((sectBALen : ℚ) + (sectLen : ℚ)))
      max base (max abRat baRat)

/-! ## library_matcher.py — `LibraryMatcher.score` -/

/-- The result dict of `LibraryMatcher.score`. -/
structure ScoreRes where
  title_score : ℚ
  author_score : ℚ
  is_match : Bool
  is_possible : Bool
deriving Repr, DecidableEq

/-- `LibraryMatcher.score(request_title, request_author, abs_title,
abs_author)` with the matcher's configured `threshold`. -/
def score (threshold : ℚ) (request_title request_author abs_title abs_author : String) :
    ScoreRes :=
  let t_req := normalizeL request_title.data
  let t_abs := normalizeL abs_title.data
  let a_req := normalizeL request_author.data
  let a_abs := normalizeL abs_author.data
  let title_score : ℚ := tokenSetRatioVal t_req t_abs / 100
  let author_score : ℚ :=
    if !a_req.isEmpty && !a_abs.isEmpty then fuzzRatioVal a_req a_abs / 100 else 0
  let is_match : Bool := decide (threshold ≤ title_score) && decide (threshold ≤ author_score)
  let is_possible : Bool := decide (threshold ≤ title_score) && !is_match
  ⟨title_score, author_score, is_match, is_possible⟩

/-! ## library_matcher.py — `find_matches` and `check_single` -/

/-- One ABS library item as consumed by the matcher (`item.get('title', '')`
and `item.get('author', '')`). -/
structure Item where
  id : Nat
  title : String
  author : String
deriving Repr, DecidableEq

/-- The scoring pass of `find_matches`: every item paired with its score. -/
def scoreList (threshold : ℚ) (title author : String) (items : List Item) :
    List (Item × ScoreRes) :=
  items.map fun it => (it, score threshold title author it.title it.author)

/-- The filtering pass of `find_matches`: keep items whose score has
`is_match` or `is_possible`. -/
def matchesOf (threshold : ℚ) (title author : String) (items : List Item) :
    List (Item × ScoreRes) :=
  (scoreList threshold title author items).filter fun p => p.2.is_match || p.2.is_possible

/-- Stable descending insertion by `title_score`: the new element goes in
front of the first element whose key is not larger, so earlier input stays
in front on ties.  This is the behaviour of Python's stable
`sorted(..., key=..., reverse=True)`. -/
def insertDesc (x : Item × ScoreRes) : List (Item × ScoreRes) → List (Item × ScoreRes)
  | [] => [x]
  | y :: ys =>
    if y.2.title_score ≤ x.2.title_score then x :: y :: ys else y :: insertDesc x ys

/-- Stable sort by `title_score` descending. -/
def sortByDesc : List (Item × ScoreRes) → List (Item × ScoreRes)
  | [] => []
  | x :: xs => insertDesc x (sortByDesc xs)

/-- `LibraryMatcher.find_matches`. -/
def find_matches (threshold : ℚ) (title author : String) (items : List Item) :
    List (Item × ScoreRes) :=
  sortByDesc (matchesOf threshold title author items)

/-- The result dict of `check_single`. -/
structure CheckRes where
  found : Bool
  is_certain : Bool
  matched : Option (Item × ScoreRes)
deriving Repr, DecidableEq

/-- `LibraryMatcher.check_single`: best match of `find_matches`, if any. -/
def check_single (threshold : ℚ) (title author : String) (items : List Item) : CheckRes :=
  match find_matches threshold title author items with
  | [] => ⟨false, false, none⟩
  | best :: _ => ⟨true, best.2.is_match, some best⟩

/-! ## sync.py — data model (`AudiobookRequest`, `SyncLog`, the store) -/

/-- `AudiobookRequest.status` values. -/
inductive ReqStatus where
  | pending
  | in_progress
  | possible_match
  | fulfilled
  | completed
  | rejected
deriving Repr, DecidableEq

/-- `_CHECKABLE_STATUSES = ('pending', 'in_progress', 'possible_match')`:
statuses still open and worth checking against ABS. -/
def checkable (s : ReqStatus) : Bool :=
  s = .pending || s = .in_progress || s = .possible_match

/-- The fields of `AudiobookRequest` the sync reads or writes.  `author` is a
nullable column (`req.author or ''` in the code). -/
structure Request where
  id : Nat
  title : String
  author : Option String
  status : ReqStatus
  fulfilled_by_sync : Bool
  abs_match_title : Option String
  abs_match_author : Option String
  last_sync_checked_at : Option Int
deriving Repr, DecidableEq

/-- `SyncLog.status` values. -/
inductive LogStatus where
  | running
  | completed
  | failed
deriving Repr, DecidableEq

/-- One `SyncLog` row.  Timestamps are integers (seconds). -/
structure SyncLog where
  id : Nat
  started_at : Int
  finished_at : Option Int
  status : LogStatus
  total_requests_checked : Nat
  total_matches_found : Nat
  matched_request_ids : Option (List Nat)
  error_message : Option String
  triggered_by : String
  triggered_by_user_id : Option Nat
deriving Repr, DecidableEq

/-- The durable database state seen by the sync service. -/
structure Store where
  requests : List Request
  logs : List SyncLog
deriving Repr, DecidableEq

/-! ## sync.py — `run_abs_sync` -/

/-- `datetime.utcnow() - timedelta(minutes=5)`: the staleness cutoff of the
concurrency guard. -/
def staleCutoff (now : Int) : Int := now - 300

/-- The concurrency guard query: is some sync log still `running` with
`started_at > cutoff`? -/
def guardBlocked (st : Store) (now : Int) : Bool :=
  st.logs.any fun l => l.status = .running && decide (staleCutoff now < l.started_at)

/-- Auto-increment primary key for a new `SyncLog` row. -/
def nextLogId (logs : List SyncLog) : Nat :=
  (logs.map SyncLog.id).foldr max 0 + 1

/-- Create the `SyncLog(status='running', ...)` row and commit it
(sync.py lines 42–49); returns the new durable state and `log_id`. -/
def openRun (st : Store) (now : Int) (trig : String) (uid : Option Nat) : Store × Nat :=
  let lid := nextLogId st.logs
  (⟨st.requests,
    st.logs ++ [⟨lid, now, none, .running, 0, 0, none, none, trig, uid⟩]⟩, lid)

/-- `match.get('title', '')` on the best-match dict of a check result. -/
def matchTitle (c : CheckRes) : String := ((c.matched.map fun m => m.1.title).getD (""))

/-- `match.get('author', '')` on the best-match dict of a check result. -/
def matchAuthor (c : CheckRes) : String := ((c.matched.map fun m => m.1.author).getD (""))

/-- The body of the per-request loop (sync.py lines 86–121) for one request:
stamp `last_sync_checked_at`, skip matching on an empty snapshot, otherwise
apply the tri-state transition.  The boolean records whether the request was
appended to `matched_ids` (certain match). -/
def processReq (threshold : ℚ) (items : List Item) (now : Int) (r : Request) :
    Request × Bool :=
  let r1 : Request := { r with last_sync_checked_at := some now }
  if items.isEmpty then (r1, false)
  else
    let c := check_single threshold r1.title (r1.author.getD ("")) items
    if c.found && c.is_certain then
      ({ r1 with
          status := .fulfilled
          fulfilled_by_sync := true
          abs_match_title := some (matchTitle c)
          abs_match_author := some (matchAuthor c) }, true)
    else if c.found && !c.is_certain then
      if !(r1.status = .fulfilled || r1.status = .completed || r1.status = .rejected) then
        ({ r1 with
            status := .possible_match
            abs_match_title := some (matchTitle c)
            abs_match_author := some (matchAuthor c) }, false)
      else (r1, false)
    else
      if r1.status = .possible_match then
        ({ r1 with
            status := .pending
            abs_match_title := none
            abs_match_author := none }, false)
      else (r1, false)

/-- The per-request loop over the whole request table.  Only requests with a
checkable status are iterated (the `query.filter` of line 79); the others are
left in place.  `seen` counts iterated (active) requests; an unexpected
exception is modelled as aborting just before processing the `fail?`-th
active request, leaving the earlier mutations pending in the session.
Returns (session request state, `matched_ids`, aborted?). -/
def loopReqs (threshold : ℚ) (items : List Item) (now : Int) (fail? : Option Nat) :
    List Request → Nat → List Request × List Nat × Bool
  | [], _ => ([], [], false)
  | r :: rest, seen =>
    if checkable r.status then
      if fail? = some seen then (r :: rest, [], true)
      else
        let p := processReq threshold items now r
        let t := loopReqs threshold items now fail? rest (seen + 1)
        (p.1 :: t.1, (if p.2 then [r.id] else []) ++ t.2.1, t.2.2)
    else
      let t := loopReqs threshold items now fail? rest seen
      (r :: t.1, t.2.1, t.2.2)

/-- The failure path of sync.py lines 141–148: the `except` handler fetches
the sync-log row, marks it failed and calls `db.session.commit()`.  That
commit flushes the whole session, so every pending object — including any
request rows already mutated by the aborted loop — becomes durable together
with the log update. -/
def setLogFailed (pending : Store) (lid : Nat) (now : Int) (msg : String) : Store :=
  ⟨pending.requests,
    pending.logs.map fun l =>
      if l.id = lid then
        { l with status := .failed, finished_at := some now, error_message := some msg }
      else l⟩

/-- The success path of sync.py lines 123–132: commit the request mutations,
then finalise the sync-log row and commit again. -/
def setLogCompleted (pending : Store) (lid : Nat) (now : Int)
    (checked : Nat) (ids : List Nat) : Store :=
  ⟨pending.requests,
    pending.logs.map fun l =>
      if l.id = lid then
        { l with
            status := .completed
            finished_at := some now
            total_requests_checked := checked
            total_matches_found := ids.length
            matched_request_ids := some ids }
      else l⟩

/-- `run_abs_sync`.  `fetch` is the outcome of the catalog collaborator
(`AudiobookshelfClient.get_all_items_all_libraries`, with the missing-URL
configuration error folded in as an error outcome); `loopFail` optionally
injects an unexpected exception (index of the active request at which it is
raised, and its message) into the per-request loop; `now` stands for
`datetime.utcnow()`. -/
def run_abs_sync (st : Store) (fetch : Except String (List Item)) (threshold : ℚ)
    (loopFail : Option (Nat × String)) (now : Int) (trig : String) (uid : Option Nat) :
    Store :=
  if guardBlocked st now then st
  else
    let o := openRun st now trig uid
    match fetch with
    | .error msg => setLogFailed o.1 o.2 now msg
    | .ok items =>
      let totalChecked := (o.1.requests.filter fun r => checkable r.status).length
      let lp := loopReqs threshold items now (loopFail.map Prod.fst) o.1.requests 0
      let pending : Store := ⟨lp.1, o.1.logs⟩
      if lp.2.2 then setLogFailed pending o.2 now ((loopFail.map Prod.snd).getD (""))
      else setLogCompleted pending o.2 now totalChecked lp.2.1

/-! ## sync.py — `trigger_manual_sync` -/

/-- The `threading.Thread` object returned by `trigger_manual_sync`:
a daemon thread whose `join` waits for the spawned run to finish;
`result` is the durable state once the run has completed. -/
structure SyncThread where
  daemon : Bool
  result : Store
deriving Repr, DecidableEq

/-- `trigger_manual_sync`: spawn the run on a daemon thread and return at
once.  The first component is the durable state as the caller observes it at
return time (unchanged — the run has not executed synchronously and no
failure propagates to the caller); the second is the returned `Thread`
handle. -/
def trigger_manual_sync (st : Store) (fetch : Except String (List Item)) (threshold : ℚ)
    (loopFail : Option (Nat × String)) (now : Int) (uid : Option Nat) :
    Store × SyncThread :=
  (st, ⟨true, run_abs_sync st fetch threshold loopFail now ("manual") uid⟩)

/-! ## Specification-side formalisation of the Normalizer (for claim C9)

The spec sentence describes the normalised string as: lowercase the input,
replace every non-alphanumeric non-whitespace character by a single space,
collapse whitespace runs, trim.  That is exactly: the maximal runs of
alphanumeric characters of the lowercased input, joined by single spaces.
The definitions below state this independently of the code's
substitute/collapse/strip pipeline. -/

/-- The maximal runs of characters satisfying `p` (everything else acts as a
separator). -/
def runsBy (p : Char → Bool) : List Char → List (List Char)
  | [] => []
  | c :: cs =>
    if p c then (c :: cs.takeWhile p) :: runsBy p (cs.dropWhile p)
    else runsBy p cs
  termination_by s => s.length
  decreasing_by
    · exact Nat.lt_succ_of_le (List.dropWhile_sublist _).length_le
    · exact Nat.lt_succ_self _

/-- Strip trailing whitespace only (the right half of `str.strip()`), used
to reason about `stripWS` one end at a time. -/
def rstripWS (s : List Char) : List Char :=
  (s.reverse.dropWhile Char.isWhitespace).reverse

/-- The Normalizer exactly as the spec sentence words it: runs of
**alphanumeric** characters of the lowercased input, joined by single
spaces. -/
def specNormalizeAlnum (text : String) : String :=
  ⟨joinSp (runsBy Char.isAlphanum (pyLower text.data))⟩

/-- The amended Normalizer description: runs of **word** characters
(alphanumeric or underscore — the regex `\w` class the code actually uses)
of the lowercased input, joined by single spaces. -/
def specNormalizeWord (text : String) : String :=
  ⟨joinSp (runsBy isWordChar (pyLower text.data))⟩

/-! ## Concrete fixtures used by witnesses and counterexamples -/

/-- A fulfilled request used as the concrete no-downgrade witness. -/
def wReqC5 : Request :=
  ⟨1, ("The Hobbit"), none, .fulfilled, false, none, none, none⟩

/-- The per-request loop step restricted as the orchestrator applies it: a
checkable request is processed, any other left as is (used to state and
prove run-level facts). -/
def stepReq (threshold : ℚ) (items : List Item) (now : Int) (r : Request) : Request :=
  if checkable r.status then (processReq threshold items now r).1 else r

/-- Did the loop append this request to `matched_ids`? -/
def stepMatched (threshold : ℚ) (items : List Item) (now : Int) (r : Request) : Bool :=
  checkable r.status && (processReq threshold items now r).2

/-- Pending request whose title/author exactly match the catalog item below. -/
def reqC1a : Request := ⟨1, ("Dune"), some ("Frank Herbert"), .pending, false, none, none, none⟩

/-- Pending request matching nothing in the catalog. -/
def reqC1b : Request := ⟨2, ("Nonexistent Book"), none, .pending, false, none, none, none⟩

/-- One-item catalog snapshot for the failure-path scenario. -/
def itemsC1 : List Item := [⟨10, ("Dune"), ("Frank Herbert")⟩]

/-- Store with two pending requests and an empty ledger. -/
def stC1 : Store := ⟨[reqC1a, reqC1b], []⟩

/-- A request already flagged `possible_match` (self-healing scenarios). -/
def reqC4 : Request :=
  ⟨3, ("Dune"), none, .possible_match, false, some ("Dune"), some ("Old Match"), none⟩

/-- Store holding just the flagged request. -/
def stC4 : Store := ⟨[reqC4], []⟩

/-- A catalog snapshot in which nothing scores against `"Dune"`. -/
def itemsC4 : List Item := [⟨12, ("zzz"), ("zzz")⟩]

/-- Pending request with an empty author string (scenario 3). -/
def reqC6 : Request := ⟨5, ("Dune"), some (""), .pending, false, none, none, none⟩

/-- Store holding just that request. -/
def stC6 : Store := ⟨[reqC6], []⟩

/-- Catalog snapshot whose single entry has the same title but a real author. -/
def itemsC6 : List Item := [⟨11, ("Dune"), ("Frank Herbert")⟩]

/-! ## Lemmas about the stable descending sort of `find_matches` -/

theorem insertDesc_perm (x : Item × ScoreRes) (l : List (Item × ScoreRes)) :
    (insertDesc x l).Perm (x :: l) := by
  induction l with
  | nil => exact List.Perm.refl _
  | cons y ys ih =>
    by_cases h : y.2.title_score ≤ x.2.title_score
    · simp [insertDesc, h]
    · simp only [insertDesc, if_neg h]
      exact (ih.cons y).trans (List.Perm.swap x y ys)

theorem sortByDesc_perm (l : List (Item × ScoreRes)) : (sortByDesc l).Perm l := by
  induction l with
  | nil => exact List.Perm.refl _
  | cons x xs ih => exact (insertDesc_perm x (sortByDesc xs)).trans (ih.cons x)

theorem mem_insertDesc {a x : Item × ScoreRes} {l : List (Item × ScoreRes)} :
    a ∈ insertDesc x l ↔ a = x ∨ a ∈ l := by
  rw [(insertDesc_perm x l).mem_iff, List.mem_cons]

theorem sorted_insertDesc (x : Item × ScoreRes) (l : List (Item × ScoreRes))
    (h : l.Pairwise fun p q => q.2.title_score ≤ p.2.title_score) :
    (insertDesc x l).Pairwise fun p q => q.2.title_score ≤ p.2.title_score := by
  induction l with
  | nil => simp [insertDesc]
  | cons y ys ih =>
    rcases List.pairwise_cons.mp h with ⟨hy, hys⟩
    by_cases hle : y.2.title_score ≤ x.2.title_score
    · simp only [insertDesc, if_pos hle]
      refine List.pairwise_cons.mpr ⟨?_, h⟩
      intro b hb
      rcases List.mem_cons.mp hb with hb | hb
      · exact hb ▸ hle
      · exact le_trans (hy b hb) hle
    · simp only [insertDesc, if_neg hle]
      refine List.pairwise_cons.mpr ⟨?_, ih hys⟩
      intro b hb
      rcases mem_insertDesc.mp hb with hb | hb
      · exact hb ▸ le_of_lt (lt_of_not_le hle)
      · exact hy b hb

theorem sorted_sortByDesc (l : List (Item × ScoreRes)) :
    (sortByDesc l).Pairwise fun p q => q.2.title_score ≤ p.2.title_score := by
  induction l with
  | nil => simp [sortByDesc]
  | cons x xs ih => exact sorted_insertDesc x (sortByDesc xs) ih

theorem filter_fiber_insertDesc (q : ℚ) (x : Item × ScoreRes)
    (l : List (Item × ScoreRes)) :
    (insertDesc x l).filter (fun p => decide (p.2.title_score = q)) =
      if x.2.title_score = q then
        x :: l.filter (fun p => decide (p.2.title_score = q))
      else l.filter (fun p => decide (p.2.title_score = q)) := by
  induction l with
  | nil =>
    by_cases hx : x.2.title_score = q <;> simp [insertDesc, hx]
  | cons y ys ih =>
    simp only [insertDesc]
    by_cases hle : y.2.title_score ≤ x.2.title_score
    · rw [if_pos hle]
      by_cases hx : x.2.title_score = q <;> by_cases hy : y.2.title_score = q <;>
        simp [List.filter_cons, hx, hy]
    · rw [if_neg hle]
      by_cases hx : x.2.title_score = q
      · have hy : ¬ y.2.title_score = q := fun hy => hle (by rw [hy, hx])
        simp [List.filter_cons, hx, hy, ih]
      · by_cases hy : y.2.title_score = q <;> simp [List.filter_cons, hx, hy, ih]

theorem filter_fiber_sortByDesc (q : ℚ) (l : List (Item × ScoreRes)) :
    (sortByDesc l).filter (fun p => decide (p.2.title_score = q)) =
      l.filter (fun p => decide (p.2.title_score = q)) := by
  induction l with
  | nil => rfl
  | cons x xs ih =>
    by_cases hx : x.2.title_score = q <;>
      simp [sortByDesc, filter_fiber_insertDesc, hx, List.filter, ih]

/-- C8: for every request and catalog list, `find_matches` returns exactly
the catalog entries whose score yields `is_match` or `is_possible`
(membership and multiset equality with the filter pass), sorted by
`title_score` descending; and the sort is stable — within every title-score
fiber the original catalog order is preserved. -/
theorem find_matches_spec (threshold : ℚ) (title author : String) (items : List Item) :
    (find_matches threshold title author items).Pairwise
        (fun p q => q.2.title_score ≤ p.2.title_score) ∧
    (find_matches threshold title author items).Perm
        (matchesOf threshold title author items) ∧
    (∀ p, p ∈ find_matches threshold title author items ↔
        p ∈ scoreList threshold title author items ∧
          (p.2.is_match || p.2.is_possible) = true) ∧
    ∀ q : ℚ,
      (find_matches threshold title author items).filter
          (fun p => decide (p.2.title_score = q)) =
        (matchesOf threshold title author items).filter
          (fun p => decide (p.2.title_score = q)) := by
  unfold find_matches
  refine ⟨sorted_sortByDesc _, sortByDesc_perm _, ?_, fun q => filter_fiber_sortByDesc q _⟩
  intro p
  rw [(sortByDesc_perm _).mem_iff, matchesOf, List.mem_filter]

/-! ## Lemmas about the orchestrator -/

theorem loopReqs_fst_length (threshold : ℚ) (items : List Item) (now : Int)
    (fail? : Option Nat) :
    ∀ (rs : List Request) (seen : Nat),
      (loopReqs threshold items now fail? rs seen).1.length = rs.length := by
  intro rs
  induction rs with
  | nil => intro seen; simp [loopReqs]
  | cons r rest ih =>
    intro seen
    cases hcr : checkable r.status with
    | true =>
      by_cases hf : fail? = some seen
      · simp [loopReqs, hcr, hf]
      · simp [loopReqs, hcr, hf, ih]
    | false => simp [loopReqs, hcr, ih]

theorem loopReqs_get_not_checkable (threshold : ℚ) (items : List Item) (now : Int)
    (fail? : Option Nat) :
    ∀ (rs : List Request) (seen i : Nat) (r0 : Request),
      rs[i]? = some r0 → checkable r0.status = false →
      ((loopReqs threshold items now fail? rs seen).1)[i]? = some r0 := by
  intro rs
  induction rs with
  | nil => intro seen i r0 h; simp at h
  | cons r rest ih =>
    intro seen i r0 h hc
    cases hcr : checkable r.status with
    | true =>
      by_cases hf : fail? = some seen
      · simpa [loopReqs, hcr, hf] using h
      · cases i with
        | zero =>
          exfalso
          simp only [List.getElem?_cons_zero, Option.some.injEq] at h
          rw [h] at hcr
          rw [hc] at hcr
          exact Bool.noConfusion hcr
        | succ i =>
          simp only [List.getElem?_cons_succ] at h
          simpa [loopReqs, hcr, hf] using ih (seen + 1) i r0 h hc
    | false =>
      cases i with
      | zero =>
        simp only [List.getElem?_cons_zero, Option.some.injEq] at h
        subst h
        simp [loopReqs, hcr]
      | succ i =>
        simp only [List.getElem?_cons_succ] at h
        simpa [loopReqs, hcr] using ih seen i r0 h hc

theorem run_requests_preserved_of_not_checkable (st : Store)
    (fetch : Except String (List Item)) (threshold : ℚ)
    (loopFail : Option (Nat × String)) (now : Int) (trig : String) (uid : Option Nat)
    (i : Nat) (r0 : Request)
    (h : st.requests[i]? = some r0) (hc : checkable r0.status = false) :
    (run_abs_sync st fetch threshold loopFail now trig uid).requests[i]? = some r0 := by
  unfold run_abs_sync
  by_cases hg : guardBlocked st now = true
  · simp [hg, h]
  · cases fetch with
    | error msg => simp [hg, openRun, setLogFailed, h]
    | ok items =>
      have hloop :=
        loopReqs_get_not_checkable threshold items now (loopFail.map Prod.fst)
          st.requests 0 i r0 h hc
      by_cases hab :
          (loopReqs threshold items now (loopFail.map Prod.fst) st.requests 0).2.2 = true <;>
        simp [hg, openRun, setLogFailed, setLogCompleted, hab, hloop]

/-- C5: a request whose status is `fulfilled`, `completed` or `rejected` is
outside `_CHECKABLE_STATUSES`, so a run — whatever the catalog, the fetch
outcome, or an injected mid-loop failure — leaves the row untouched and in
particular never sets it to `possible_match`. -/
theorem no_downgrade (st : Store) (fetch : Except String (List Item)) (threshold : ℚ)
    (loopFail : Option (Nat × String)) (now : Int) (trig : String) (uid : Option Nat)
    (i : Nat) (r0 : Request) (h : st.requests[i]? = some r0)
    (hs : r0.status = .fulfilled ∨ r0.status = .completed ∨ r0.status = .rejected) :
    (run_abs_sync st fetch threshold loopFail now trig uid).requests[i]? = some r0 ∧
      r0.status ≠ .possible_match := by
  have hc : checkable r0.status = false := by
    rcases hs with h1 | h1 | h1 <;> simp [checkable, h1]
  refine ⟨run_requests_preserved_of_not_checkable st fetch threshold loopFail now trig uid
    i r0 h hc, ?_⟩
  rcases hs with h1 | h1 | h1 <;> simp [h1]

/-- Witness for C5 at a concrete store and run. -/
theorem no_downgrade_witness :
    (run_abs_sync ⟨[wReqC5], []⟩ (.ok []) (0.85) none 0 ("scheduler")
        none).requests[0]? = some wReqC5 ∧
      wReqC5.status ≠ .possible_match :=
  no_downgrade ⟨[wReqC5], []⟩ (.ok []) (0.85) none 0 ("scheduler") none 0 wReqC5
    (by rfl) (Or.inl rfl)

/-- C2: (1) whenever the ledger holds a `running` run whose `started_at` is
inside the 5-minute staleness window of `now`, invoking the orchestrator
returns the store unchanged — no new ledger row, no request mutation, the
running row untouched; (2) consequently, after a first trigger has opened
its run row, a second invocation within the window is a no-op and the ledger
holds exactly the one row. -/
theorem overlap_guard_spec :
    (∀ (st : Store) (fetch : Except String (List Item)) (threshold : ℚ)
        (loopFail : Option (Nat × String)) (now : Int) (trig : String)
        (uid : Option Nat),
      (∃ l ∈ st.logs, l.status = .running ∧ staleCutoff now < l.started_at) →
      run_abs_sync st fetch threshold loopFail now trig uid = st) ∧
    (∀ (st : Store) (fetch : Except String (List Item)) (threshold : ℚ)
        (loopFail : Option (Nat × String)) (t0 t1 : Int) (tr1 tr2 : String)
        (u1 u2 : Option Nat),
      st.logs = [] → staleCutoff t1 < t0 →
      ((openRun st t0 tr1 u1).1).logs.length = 1 ∧
      run_abs_sync ((openRun st t0 tr1 u1).1) fetch threshold loopFail t1 tr2 u2 =
        (openRun st t0 tr1 u1).1) := by
  have guard : ∀ (st : Store) (fetch : Except String (List Item)) (threshold : ℚ)
      (loopFail : Option (Nat × String)) (now : Int) (trig : String)
      (uid : Option Nat),
      (∃ l ∈ st.logs, l.status = .running ∧ staleCutoff now < l.started_at) →
      run_abs_sync st fetch threshold loopFail now trig uid = st := by
    intro st fetch threshold loopFail now trig uid h
    rcases h with ⟨l, hl, hrun, hlt⟩
    have hg : guardBlocked st now = true := by
      simp only [guardBlocked, List.any_eq_true]
      exact ⟨l, hl, by simp [hrun, hlt]⟩
    simp [run_abs_sync, hg]
  refine ⟨guard, ?_⟩
  intro st fetch threshold loopFail t0 t1 tr1 tr2 u1 u2 hlogs hwin
  constructor
  · simp [openRun, hlogs]
  · refine guard _ fetch threshold loopFail t1 tr2 u2 ?_
    refine ⟨⟨nextLogId st.logs, t0, none, .running, 0, 0, none, none, tr1, u1⟩, ?_, rfl, hwin⟩
    simp [openRun]

/-! ## Branch equations for `processReq` and the idempotence step -/

theorem processReq_keeps (threshold : ℚ) (items : List Item) (now : Int) (r : Request) :
    ((processReq threshold items now r).1).title = r.title ∧
    ((processReq threshold items now r).1).author = r.author ∧
    ((processReq threshold items now r).1).id = r.id := by
  refine ⟨?_, ?_, ?_⟩ <;> (unfold processReq; dsimp only; (repeat' split) <;> rfl)

theorem processReq_eq_empty (threshold : ℚ) (items : List Item) (now : Int) (r : Request)
    (hI : items.isEmpty = true) :
    processReq threshold items now r = ({ r with last_sync_checked_at := some now }, false) := by
  unfold processReq
  simp [hI]

theorem processReq_eq_certain (threshold : ℚ) (items : List Item) (now : Int) (r : Request)
    (hI : items.isEmpty = false)
    (hf : (check_single threshold r.title (r.author.getD ("")) items).found = true)
    (hc : (check_single threshold r.title (r.author.getD ("")) items).is_certain = true) :
    processReq threshold items now r =
      ({ r with
          last_sync_checked_at := some now
          status := .fulfilled
          fulfilled_by_sync := true
          abs_match_title :=
            some (matchTitle (check_single threshold r.title (r.author.getD ("")) items))
          abs_match_author :=
            some (matchAuthor (check_single threshold r.title (r.author.getD ("")) items)) },
        true) := by
  unfold processReq
  simp [hI, hf, hc]

theorem checkable_not_triple (s : ReqStatus) (h : checkable s = true) :
    (decide (s = ReqStatus.fulfilled) || decide (s = ReqStatus.completed) ||
      decide (s = ReqStatus.rejected)) = false := by
  revert h
  cases s <;> decide

theorem processReq_eq_possible (threshold : ℚ) (items : List Item) (now : Int) (r : Request)
    (hI : items.isEmpty = false)
    (hf : (check_single threshold r.title (r.author.getD ("")) items).found = true)
    (hc : (check_single threshold r.title (r.author.getD ("")) items).is_certain = false)
    (hch : checkable r.status = true) :
    processReq threshold items now r =
      ({ r with
          last_sync_checked_at := some now
          status := .possible_match
          abs_match_title :=
            some (matchTitle (check_single threshold r.title (r.author.getD ("")) items))
          abs_match_author :=
            some (matchAuthor (check_single threshold r.title (r.author.getD ("")) items)) },
        false) := by
  unfold processReq
  simp [hI, hf, hc, checkable_not_triple r.status hch]

theorem processReq_eq_nomatch_pm (threshold : ℚ) (items : List Item) (now : Int)
    (r : Request) (hI : items.isEmpty = false)
    (hf : (check_single threshold r.title (r.author.getD ("")) items).found = false)
    (hpm : r.status = .possible_match) :
    processReq threshold items now r =
      ({ r with
          last_sync_checked_at := some now
          status := .pending
          abs_match_title := none
          abs_match_author := none }, false) := by
  unfold processReq
  simp [hI, hf, hpm]

theorem processReq_eq_nomatch_other (threshold : ℚ) (items : List Item) (now : Int)
    (r : Request) (hI : items.isEmpty = false)
    (hf : (check_single threshold r.title (r.author.getD ("")) items).found = false)
    (hpm : ¬ r.status = .possible_match) :
    processReq threshold items now r =
      ({ r with last_sync_checked_at := some now }, false) := by
  unfold processReq
  simp [hI, hf, hpm]

/-- Re-running the per-request step on an already-stepped request (same
catalog, same threshold) keeps its status and produces no certain match:
the request-level core of idempotence. -/
theorem stepReq_idem (threshold : ℚ) (items : List Item) (now1 now2 : Int) (r : Request) :
    (stepReq threshold items now2 (stepReq threshold items now1 r)).status =
      (stepReq threshold items now1 r).status ∧
    stepMatched threshold items now2 (stepReq threshold items now1 r) = false := by
  by_cases hch : checkable r.status = true
  case neg =>
    have h1 : stepReq threshold items now1 r = r := by simp [stepReq, hch]
    rw [h1]
    have h2 : stepReq threshold items now2 r = r := by simp [stepReq, hch]
    exact ⟨by rw [h2], by simp [stepMatched, hch]⟩
  case pos =>
    by_cases hI : items.isEmpty = true
    · have e1 := processReq_eq_empty threshold items now1 r hI
      have hs1 : stepReq threshold items now1 r =
          { r with last_sync_checked_at := some now1 } := by
        simp [stepReq, hch, e1]
      rw [hs1]
      have hch1 : checkable ({ r with last_sync_checked_at := some now1 } : Request).status
          = true := hch
      have e2 := processReq_eq_empty threshold items now2
        ({ r with last_sync_checked_at := some now1 }) hI
      exact ⟨by simp [stepReq, hch1, e2], by simp [stepMatched, hch1, e2]⟩
    · have hI' : items.isEmpty = false := by simpa using hI
      by_cases hf : (check_single threshold r.title (r.author.getD ("")) items).found = true
      · by_cases hc :
            (check_single threshold r.title (r.author.getD ("")) items).is_certain = true
        · have e1 := processReq_eq_certain threshold items now1 r hI' hf hc
          have hs1 : stepReq threshold items now1 r =
              { r with
                  last_sync_checked_at := some now1
                  status := .fulfilled
                  fulfilled_by_sync := true
                  abs_match_title := some (matchTitle
                    (check_single threshold r.title (r.author.getD ("")) items))
                  abs_match_author := some (matchAuthor
                    (check_single threshold r.title (r.author.getD ("")) items)) } := by
            simp [stepReq, hch, e1]
          rw [hs1]
          exact ⟨by simp [stepReq, checkable], by simp [stepMatched, checkable]⟩
        · have hc' :
              (check_single threshold r.title (r.author.getD ("")) items).is_certain
                = false := by simpa using hc
          have e1 := processReq_eq_possible threshold items now1 r hI' hf hc' hch
          have hs1 : stepReq threshold items now1 r =
              { r with
                  last_sync_checked_at := some now1
                  status := .possible_match
                  abs_match_title := some (matchTitle
                    (check_single threshold r.title (r.author.getD ("")) items))
                  abs_match_author := some (matchAuthor
                    (check_single threshold r.title (r.author.getD ("")) items)) } := by
            simp [stepReq, hch, e1]
          rw [hs1]
          have e2 := processReq_eq_possible threshold items now2
            ({ r with
                last_sync_checked_at := some now1
                status := .possible_match
                abs_match_title := some (matchTitle
                  (check_single threshold r.title (r.author.getD ("")) items))
                abs_match_author := some (matchAuthor
                  (check_single threshold r.title (r.author.getD ("")) items)) })
            hI' hf hc' (by simp [checkable])
          exact ⟨by simp [stepReq, checkable, e2], by simp [stepMatched, checkable, e2]⟩
      · have hf' :
            (check_single threshold r.title (r.author.getD ("")) items).found = false := by
          simpa using hf
        by_cases hpm : r.status = .possible_match
        · have e1 := processReq_eq_nomatch_pm threshold items now1 r hI' hf' hpm
          have hs1 : stepReq threshold items now1 r =
              { r with
                  last_sync_checked_at := some now1
                  status := .pending
                  abs_match_title := none
                  abs_match_author := none } := by
            simp [stepReq, hch, e1]
          rw [hs1]
          have e2 := processReq_eq_nomatch_other threshold items now2
            ({ r with
                last_sync_checked_at := some now1
                status := .pending
                abs_match_title := none
                abs_match_author := none })
            hI' hf' (by simp)
          exact ⟨by simp [stepReq, checkable, e2], by simp [stepMatched, checkable, e2]⟩
        · have e1 := processReq_eq_nomatch_other threshold items now1 r hI' hf' hpm
          have hs1 : stepReq threshold items now1 r =
              { r with last_sync_checked_at := some now1 } := by
            simp [stepReq, hch, e1]
          rw [hs1]
          have hch1 : checkable ({ r with last_sync_checked_at := some now1 } : Request).status
              = true := hch
          have e2 := processReq_eq_nomatch_other threshold items now2
            ({ r with last_sync_checked_at := some now1 }) hI' hf' hpm
          exact ⟨by simp [stepReq, hch1, e2], by simp [stepMatched, hch1, e2]⟩

theorem loopReqs_none (threshold : ℚ) (items : List Item) (now : Int) :
    ∀ (rs : List Request) (seen : Nat),
      loopReqs threshold items now none rs seen =
        (rs.map (stepReq threshold items now),
          (rs.filter fun r => stepMatched threshold items now r).map Request.id,
          false) := by
  intro rs
  induction rs with
  | nil => intro seen; simp [loopReqs]
  | cons r rest ih =>
    intro seen
    cases hcr : checkable r.status with
    | true =>
      by_cases hp : (processReq threshold items now r).2 = true
      · simp [loopReqs, hcr, ih (seen + 1), stepReq, stepMatched, List.filter_cons, hp]
      · simp [loopReqs, hcr, ih (seen + 1), stepReq, stepMatched, List.filter_cons, hp]
    | false =>
      simp [loopReqs, hcr, ih seen, stepReq, stepMatched, List.filter_cons]

theorem le_foldr_max (x : Nat) (xs : List Nat) (h : x ∈ xs) : x ≤ xs.foldr max 0 := by
  induction xs with
  | nil => simp at h
  | cons y ys ih =>
    rcases List.mem_cons.mp h with h | h
    · exact h ▸ le_max_left _ _
    · exact le_trans (ih h) (le_max_right _ _)

theorem nextLogId_fresh (logs : List SyncLog) (l : SyncLog) (h : l ∈ logs) :
    l.id ≠ nextLogId logs := by
  intro he
  have h2 : l.id ≤ (logs.map SyncLog.id).foldr max 0 :=
    le_foldr_max _ _ (List.mem_map_of_mem _ h)
  rw [he] at h2
  simp only [nextLogId] at h2
  omega

theorem guardBlocked_eq_false (st : Store) (now : Int)
    (h : ∀ l ∈ st.logs, l.status ≠ .running) : guardBlocked st now = false := by
  simp only [guardBlocked]
  rw [List.any_eq_false]
  intro l hl
  simp [h l hl]

/-- Closed form of a successful run: requests are mapped through `stepReq`. -/
theorem run_ok_requests (st : Store) (items : List Item) (threshold : ℚ) (now : Int)
    (trig : String) (uid : Option Nat) (hg : guardBlocked st now = false) :
    (run_abs_sync st (.ok items) threshold none now trig uid).requests =
      st.requests.map (stepReq threshold items now) := by
  unfold run_abs_sync
  simp [hg, openRun, loopReqs_none, setLogCompleted]

/-- Closed form of a successful run: the ledger gains exactly one completed
row carrying the counters of this run. -/
theorem run_ok_logs (st : Store) (items : List Item) (threshold : ℚ) (now : Int)
    (trig : String) (uid : Option Nat) (hg : guardBlocked st now = false) :
    (run_abs_sync st (.ok items) threshold none now trig uid).logs =
      st.logs ++
        [⟨nextLogId st.logs, now, some now, .completed,
          (st.requests.filter fun r => checkable r.status).length,
          ((st.requests.filter fun r => stepMatched threshold items now r).map
            Request.id).length,
          some ((st.requests.filter fun r => stepMatched threshold items now r).map
            Request.id),
          none, trig, uid⟩] := by
  unfold run_abs_sync
  simp only [hg, Bool.false_eq_true, if_false, openRun, loopReqs_none,
    setLogCompleted, Option.map_none']
  rw [List.map_append]
  congr 1
  · calc st.logs.map _ = st.logs.map id :=
        List.map_congr_left fun l hl => by
          simp [if_neg (nextLogId_fresh st.logs l hl)]
      _ = st.logs := List.map_id _
  · simp

/-- C3: with an unchanged catalog and no external change to the requests,
running the orchestrator twice in succession yields the same status on every
request after the second run as after the first, and the second run's
ledger row records `total_matches_found = 0`. -/
theorem sync_idempotent (st : Store) (items : List Item) (threshold : ℚ)
    (now1 now2 : Int) (tr1 tr2 : String) (u1 u2 : Option Nat)
    (hnr : ∀ l ∈ st.logs, l.status ≠ .running) :
    ((run_abs_sync (run_abs_sync st (.ok items) threshold none now1 tr1 u1)
        (.ok items) threshold none now2 tr2 u2).requests.map Request.status =
      (run_abs_sync st (.ok items) threshold none now1 tr1 u1).requests.map
        Request.status) ∧
    ((run_abs_sync (run_abs_sync st (.ok items) threshold none now1 tr1 u1)
        (.ok items) threshold none now2 tr2 u2).logs.getLast?).map
        SyncLog.total_matches_found = some 0 := by
  have hg1 : guardBlocked st now1 = false := guardBlocked_eq_false st now1 hnr
  have hreq1 := run_ok_requests st items threshold now1 tr1 u1 hg1
  have hlog1 := run_ok_logs st items threshold now1 tr1 u1 hg1
  have hnr1 : ∀ l ∈ (run_abs_sync st (.ok items) threshold none now1 tr1 u1).logs,
      l.status ≠ .running := by
    rw [hlog1]
    intro l hl
    rcases List.mem_append.mp hl with h | h
    · exact hnr l h
    · rw [List.mem_singleton.mp h]
      simp
  have hg2 := guardBlocked_eq_false _ now2 hnr1
  have hreq2 := run_ok_requests (run_abs_sync st (.ok items) threshold none now1 tr1 u1)
    items threshold now2 tr2 u2 hg2
  have hfilter2 : ((run_abs_sync st (.ok items) threshold none now1 tr1 u1).requests.filter
      fun r => stepMatched threshold items now2 r) = [] := by
    rw [hreq1, List.filter_eq_nil_iff]
    intro a ha
    rcases List.mem_map.mp ha with ⟨r, _, rfl⟩
    simp [(stepReq_idem threshold items now1 now2 r).2]
  constructor
  · rw [hreq2, hreq1, List.map_map, List.map_map, List.map_map]
    exact List.map_congr_left fun r _ => by
      simpa using (stepReq_idem threshold items now1 now2 r).1
  · rw [run_ok_logs (run_abs_sync st (.ok items) threshold none now1 tr1 u1)
      items threshold now2 tr2 u2 hg2]
    rw [List.getLast?_concat]
    simp [hfilter2]

/-- Witness for C3 at a concrete store (empty ledger). -/
theorem sync_idempotent_witness :
    ((run_abs_sync (run_abs_sync ⟨[], []⟩ (.ok []) (0.85) none 0 ("scheduler") none)
        (.ok []) (0.85) none 0 ("manual") none).requests.map Request.status =
      (run_abs_sync ⟨[], []⟩ (.ok []) (0.85) none 0 ("scheduler") none).requests.map
        Request.status) ∧
    ((run_abs_sync (run_abs_sync ⟨[], []⟩ (.ok []) (0.85) none 0 ("scheduler") none)
        (.ok []) (0.85) none 0 ("manual") none).logs.getLast?).map
        SyncLog.total_matches_found = some 0 :=
  sync_idempotent ⟨[], []⟩ [] (0.85) 0 0 ("scheduler") ("manual") none none
    (by intro l hl; simp at hl)

/-- Witness for C2 at a concrete ledger state and concrete times 0 and 200
(within the 5-minute window). -/
theorem overlap_guard_spec_witness :
    run_abs_sync ⟨[], [⟨1, 0, none, .running, 0, 0, none, none, ("scheduler"), none⟩]⟩
        (.ok []) (0.85) none 200 ("manual") (some 9) =
      ⟨[], [⟨1, 0, none, .running, 0, 0, none, none, ("scheduler"), none⟩]⟩ ∧
    ((openRun ⟨[], []⟩ 0 ("manual") none).1).logs.length = 1 ∧
    run_abs_sync ((openRun ⟨[], []⟩ 0 ("manual") none).1) (.ok []) (0.85) none 200
        ("manual") none =
      (openRun ⟨[], []⟩ 0 ("manual") none).1 :=
  ⟨overlap_guard_spec.1 _ (.ok []) (0.85) none 200 ("manual") (some 9)
      ⟨_, List.mem_singleton.mpr rfl, rfl, by norm_num [staleCutoff]⟩,
    overlap_guard_spec.2 ⟨[], []⟩ (.ok []) (0.85) none 0 200 ("manual") ("manual")
      none none rfl (by norm_num [staleCutoff])⟩

/-! ## Concrete score evaluations -/

theorem fuzzSelfFH :
    fuzzRatioVal (("frank herbert").data) (("frank herbert").data) = 100 := by
  unfold fuzzRatioVal
  rw [if_neg (by decide)]
  rw [show indelDist (("frank herbert").data) (("frank herbert").data) = 0 from by decide]
  rw [show (("frank herbert").data).length = 13 from by decide]
  norm_num

theorem scoreDuneFH :
    score (0.85) ("Dune") ("Frank Herbert") ("Dune") ("Frank Herbert") =
      ⟨1, 1, true, false⟩ := by
  unfold score
  dsimp only
  rw [show normalizeL ("Dune").data = ("dune").data from by decide,
    show normalizeL ("Frank Herbert").data = ("frank herbert").data from by decide]
  rw [show tokenSetRatioVal (("dune").data) (("dune").data) = 100 from rfl]
  rw [fuzzSelfFH]
  rw [show ((("frank herbert").data).isEmpty : Bool) = false from by decide]
  rw [show (100 : ℚ) / 100 = 1 from by norm_num]
  rw [decide_eq_true (show (0.85 : ℚ) ≤ 1 from by norm_num)]
  simp
  norm_num

theorem checkC1a :
    check_single (0.85) ("Dune") ("Frank Herbert") itemsC1 =
      ⟨true, true, some (⟨10, ("Dune"), ("Frank Herbert")⟩, ⟨1, 1, true, false⟩)⟩ := by
  simp [check_single, find_matches, matchesOf, scoreList, itemsC1, scoreDuneFH,
    sortByDesc, insertDesc]

/-- Full evaluation of the failing run: fetch succeeds, the first request is
matched and mutated, then an unexpected exception aborts the loop before the
second request; the failure handler's commit persists the log update
*and* the first request's mutation. -/
theorem runC1_eq :
    run_abs_sync stC1 (.ok itemsC1) (0.85) (some (1, ("boom"))) 7 ("scheduler") none =
      ⟨[⟨1, ("Dune"), some ("Frank Herbert"), .fulfilled, true, some ("Dune"),
          some ("Frank Herbert"), some 7⟩, reqC1b],
        [⟨1, 7, some 7, .failed, 0, 0, none, some ("boom"), ("scheduler"), none⟩]⟩ := by
  have hpa : processReq (0.85) itemsC1 7
      (⟨1, ("Dune"), some ("Frank Herbert"), .pending, false, none, none, none⟩ : Request) =
      (⟨1, ("Dune"), some ("Frank Herbert"), .fulfilled, true, some ("Dune"),
        some ("Frank Herbert"), some 7⟩, true) := by
    have e := processReq_eq_certain (0.85) itemsC1 7
      (⟨1, ("Dune"), some ("Frank Herbert"), .pending, false, none, none, none⟩ : Request)
      (by rfl) (by simp [checkC1a]) (by simp [checkC1a])
    rw [e]
    simp [matchTitle, matchAuthor, checkC1a]
  unfold run_abs_sync
  simp [guardBlocked, stC1, openRun, nextLogId,
    loopReqs, checkable, hpa, setLogFailed, reqC1a, reqC1b]

/-- C1: the failure path does close the run as failed with the error captured
and `finished_at` set — but the store's request state after the failed run
does **not** equal its state before the run: the mutations computed for the
requests processed before the exception (status change, matched-title/author
snapshot, last-checked stamp) are persisted by the failure handler's session
commit.  Concretely, request 1 goes from `pending` to `fulfilled` although
the run failed. -/
theorem run_failure_partial_commit :
    (((run_abs_sync stC1 (.ok itemsC1) (0.85) (some (1, ("boom"))) 7 ("scheduler")
        none).logs.getLast?).map fun l => (l.status, l.finished_at, l.error_message)) =
      some (.failed, some 7, some ("boom")) ∧
    ((run_abs_sync stC1 (.ok itemsC1) (0.85) (some (1, ("boom"))) 7 ("scheduler")
        none).requests.map Request.status) = [.fulfilled, .pending] ∧
    stC1.requests.map Request.status = [.pending, .pending] ∧
    ((run_abs_sync stC1 (.ok itemsC1) (0.85) (some (1, ("boom"))) 7 ("scheduler")
        none).requests ≠ stC1.requests) := by
  rw [runC1_eq]
  refine ⟨rfl, ?_, ?_, ?_⟩ <;> decide

/-! ## Self-healing (C4) -/

theorem tokenSetDuneZzz : tokenSetRatioVal (("dune").data) (("zzz").data) = 0 := by
  unfold tokenSetRatioVal
  dsimp only
  rw [if_neg (by decide)]
  rw [if_pos (by decide)]
  rw [show joinSp (List.filter
      (fun t => !List.any (sortedTokens (("zzz").data)) fun u => u = t)
      (sortedTokens (("dune").data))) = ("dune").data from by decide]
  rw [show joinSp (List.filter
      (fun t => !List.any (sortedTokens (("dune").data)) fun u => u = t)
      (sortedTokens (("zzz").data))) = ("zzz").data from by decide]
  rw [show indelDist (("dune").data) (("zzz").data) = 7 from by decide]
  rw [show joinSp (List.filter
      (fun t => List.any (sortedTokens (("zzz").data)) fun u => u = t)
      (sortedTokens (("dune").data))) = [] from by decide]
  norm_num

theorem scoreDuneZzz :
    score (0.85) ("Dune") ("") ("zzz") ("zzz") = ⟨0, 0, false, false⟩ := by
  unfold score
  dsimp only
  rw [show normalizeL ("Dune").data = ("dune").data from by decide,
    show normalizeL ("zzz").data = ("zzz").data from by decide,
    show normalizeL ("").data = ([] : List Char) from by decide]
  rw [tokenSetDuneZzz]
  rw [show (0 : ℚ) / 100 = 0 from by norm_num]
  rw [decide_eq_false (show ¬((0.85 : ℚ) ≤ 0) from by norm_num)]
  simp

theorem check_single_not_found (threshold : ℚ) (title author : String)
    (items : List Item)
    (h : ∀ e ∈ items,
      (score threshold title author e.title e.author).is_match = false ∧
      (score threshold title author e.title e.author).is_possible = false) :
    check_single threshold title author items = ⟨false, false, none⟩ := by
  have hm : matchesOf threshold title author items = [] := by
    rw [matchesOf, List.filter_eq_nil_iff]
    intro p hp
    rw [scoreList] at hp
    rcases List.mem_map.mp hp with ⟨e, he, rfl⟩
    simp [(h e he).1, (h e he).2]
  unfold check_single find_matches
  rw [hm]
  rfl

/-- C4 (amended): for a request flagged `possible_match`, when the snapshot
is **non-empty** and no catalog entry scores `is_match` or `is_possible`
against it, the run reverts the status to `pending` and clears both matched
fields.  (With an empty snapshot the loop skips matching entirely — see the
counterexample.) -/
theorem self_healing (st : Store) (items : List Item) (threshold : ℚ) (now : Int)
    (trig : String) (uid : Option Nat) (i : Nat) (r0 : Request)
    (hnr : ∀ l ∈ st.logs, l.status ≠ .running)
    (hne : items.isEmpty = false)
    (hi : st.requests[i]? = some r0)
    (hpm : r0.status = .possible_match)
    (hno : ∀ e ∈ items,
      (score threshold r0.title (r0.author.getD ("")) e.title e.author).is_match = false ∧
      (score threshold r0.title (r0.author.getD ("")) e.title e.author).is_possible
        = false) :
    ((run_abs_sync st (.ok items) threshold none now trig uid).requests[i]?).map
        (fun x => (x.status, x.abs_match_title, x.abs_match_author)) =
      some (.pending, none, none) := by
  rw [run_ok_requests st items threshold now trig uid (guardBlocked_eq_false st now hnr)]
  rw [List.getElem?_map, hi]
  have hcheck := check_single_not_found threshold r0.title (r0.author.getD ("")) items hno
  have e1 := processReq_eq_nomatch_pm threshold items now r0 hne (by rw [hcheck]) hpm
  have hch : checkable r0.status = true := by simp [checkable, hpm]
  simp [stepReq, hch, e1]

/-- Witness for C4's amended statement: the flagged `"Dune"` request reverts
to `pending` against a non-empty catalog that scores nothing. -/
theorem self_healing_witness :
    ((run_abs_sync stC4 (.ok itemsC4) (0.85) none 5 ("scheduler") none).requests[0]?).map
        (fun x => (x.status, x.abs_match_title, x.abs_match_author)) =
      some (.pending, none, none) :=
  self_healing stC4 itemsC4 (0.85) 5 ("scheduler") none 0 reqC4
    (by intro l hl; simp [stC4] at hl) (by rfl) (by rfl) (by rfl)
    (by
      intro e he
      simp only [itemsC4, List.mem_singleton] at he
      subst he
      rw [show (reqC4.title) = ("Dune") from rfl,
        show ((reqC4.author).getD ("")) = ("") from rfl]
      rw [scoreDuneZzz]
      exact ⟨rfl, rfl⟩)

/-- Counterexample to C4 as stated: with an **empty** snapshot the premise
"no catalog entry satisfies `is_match` or `is_possible`" holds vacuously,
yet the run leaves the request at `possible_match` instead of reverting it
to `pending` (sync.py line 89–90 skips matching when the snapshot is
empty). -/
theorem self_healing_counterexample :
    (∀ e ∈ ([] : List Item),
      (score (0.85) (reqC4.title) ((reqC4.author).getD ("")) e.title e.author).is_match
          = false ∧
      (score (0.85) (reqC4.title) ((reqC4.author).getD ("")) e.title e.author).is_possible
          = false) ∧
    ((run_abs_sync stC4 (.ok []) (0.85) none 5 ("scheduler") none).requests[0]?).map
        Request.status = some .possible_match ∧
    ReqStatus.possible_match ≠ ReqStatus.pending := by
  refine ⟨?_, by decide, by decide⟩
  intro e he
  simp at he

/-! ## Empty-author handling (C6) -/

theorem scoreDuneNoAuthor :
    score (0.85) ("Dune") ("") ("Dune") ("Frank Herbert") = ⟨1, 0, false, true⟩ := by
  unfold score
  dsimp only
  rw [show normalizeL ("Dune").data = ("dune").data from by decide,
    show normalizeL ("").data = ([] : List Char) from by decide,
    show normalizeL ("Frank Herbert").data = ("frank herbert").data from by decide]
  rw [show tokenSetRatioVal (("dune").data) (("dune").data) = 100 from rfl]
  rw [show (100 : ℚ) / 100 = 1 from by norm_num]
  rw [decide_eq_true (show (0.85 : ℚ) ≤ 1 from by norm_num)]
  rw [if_neg (by decide)]
  rw [decide_eq_false (show ¬((0.85 : ℚ) ≤ 0) from by norm_num)]
  simp

theorem checkC6 :
    check_single (0.85) ("Dune") ("") itemsC6 =
      ⟨true, false, some (⟨11, ("Dune"), ("Frank Herbert")⟩, ⟨1, 0, false, true⟩)⟩ := by
  simp [check_single, find_matches, matchesOf, scoreList, itemsC6, scoreDuneNoAuthor,
    sortByDesc, insertDesc]

/-- Full evaluation of a run over the empty-author request: it is flagged
`possible_match` with the catalog entry's title/author stored. -/
theorem runC6_eq :
    run_abs_sync stC6 (.ok itemsC6) (0.85) none 3 ("scheduler") none =
      ⟨[⟨5, ("Dune"), some (""), .possible_match, false, some ("Dune"),
          some ("Frank Herbert"), some 3⟩],
        [⟨1, 3, some 3, .completed, 1, 0, some [], none, ("scheduler"), none⟩]⟩ := by
  have hpp : processReq (0.85) itemsC6 3
      (⟨5, ("Dune"), some (""), .pending, false, none, none, none⟩ : Request) =
      (⟨5, ("Dune"), some (""), .possible_match, false, some ("Dune"),
        some ("Frank Herbert"), some 3⟩, false) := by
    have e := processReq_eq_possible (0.85) itemsC6 3
      (⟨5, ("Dune"), some (""), .pending, false, none, none, none⟩ : Request)
      (by rfl) (by simp [checkC6]) (by simp [checkC6]) (by rfl)
    rw [e]
    simp [matchTitle, matchAuthor, checkC6]
  unfold run_abs_sync
  simp [guardBlocked, stC6, openRun, nextLogId,
    loopReqs, checkable, hpp, setLogCompleted, reqC6]

/-- C6: whenever either normalized author string is empty the author score
is forced to `0.0` (the authors are never compared) and, for any positive
threshold, `is_match` is false; concretely, request `("Dune", "")` against
entry `("Dune", "Frank Herbert")` scores `is_match = false`,
`is_possible = true`, and a run over such a checkable request sets its
status to `possible_match`. -/
theorem author_empty_no_match :
    (∀ (threshold : ℚ) (request_title request_author abs_title abs_author : String),
      0 < threshold →
      (normalizeL request_author.data = [] ∨ normalizeL abs_author.data = []) →
      (score threshold request_title request_author abs_title abs_author).author_score
          = 0 ∧
      (score threshold request_title request_author abs_title abs_author).is_match
          = false) ∧
    score (0.85) ("Dune") ("") ("Dune") ("Frank Herbert") = ⟨1, 0, false, true⟩ ∧
    ((run_abs_sync stC6 (.ok itemsC6) (0.85) none 3 ("scheduler") none).requests.map
        Request.status) = [.possible_match] := by
  refine ⟨?_, scoreDuneNoAuthor, by rw [runC6_eq]; rfl⟩
  intro threshold rt ra abt aba hθ h
  have hd := decide_eq_false (not_le.mpr hθ : ¬ threshold ≤ (0 : ℚ))
  rcases h with h | h <;>
    constructor <;>
      simp [score, h, hd]

/-- Witness for C6's universally quantified part at a concrete threshold and
strings (request author present, entry author empty). -/
theorem author_empty_no_match_witness :
    (score (0.85) ("Some Title") ("An Author") ("Some Title") ("")).author_score = 0 ∧
    (score (0.85) ("Some Title") ("An Author") ("Some Title") ("")).is_match = false :=
  author_empty_no_match.1 (0.85) ("Some Title") ("An Author") ("Some Title") ("")
    (by norm_num) (Or.inr (by decide))

/-! ## Token-subset tolerance of the title score (C7) -/

theorem tokenSetRatioVal_subset (s1 s2 : List Char)
    (hne : sortedTokens s1 ≠ [])
    (hsub : ∀ t ∈ sortedTokens s1, t ∈ sortedTokens s2) :
    tokenSetRatioVal s1 s2 = 100 := by
  unfold tokenSetRatioVal
  dsimp only
  have hsect : (sortedTokens s1).filter
      (fun t => (sortedTokens s2).any fun u => u = t) = sortedTokens s1 := by
    rw [List.filter_eq_self]
    intro t ht
    rw [List.any_eq_true]
    exact ⟨t, hsub t ht, by simp⟩
  have hdiff : (sortedTokens s1).filter
      (fun t => !((sortedTokens s2).any fun u => u = t)) = [] := by
    rw [List.filter_eq_nil_iff]
    intro t ht hcon
    have hany : (sortedTokens s2).any (fun u => u = t) = true :=
      List.any_eq_true.mpr ⟨t, hsub t ht, by simp⟩
    rw [hany] at hcon
    simp at hcon
  rw [if_pos ⟨by rw [hsect]; exact hne, Or.inl hdiff⟩]

theorem fuzzSelfMG :
    fuzzRatioVal (("mark greaney").data) (("mark greaney").data) = 100 := by
  unfold fuzzRatioVal
  rw [if_neg (by decide)]
  rw [show indelDist (("mark greaney").data) (("mark greaney").data) = 0 from by decide]
  rw [show (("mark greaney").data).length = 12 from by decide]
  norm_num

theorem scoreHardLine :
    score (0.85) ("The Hard Line: A Gray Man Novel") ("Mark Greaney") ("The Hard Line")
      ("Mark Greaney") = ⟨1, 1, true, false⟩ := by
  unfold score
  dsimp only
  rw [show normalizeL ("The Hard Line: A Gray Man Novel").data =
      ("the hard line a gray man novel").data from by decide,
    show normalizeL ("The Hard Line").data = ("the hard line").data from by decide,
    show normalizeL ("Mark Greaney").data = ("mark greaney").data from by decide]
  rw [show tokenSetRatioVal (("the hard line a gray man novel").data)
      (("the hard line").data) = 100 from rfl]
  rw [fuzzSelfMG]
  rw [show ((("mark greaney").data).isEmpty : Bool) = false from by decide]
  rw [show (100 : ℚ) / 100 = 1 from by norm_num]
  rw [decide_eq_true (show (0.85 : ℚ) ≤ 1 from by norm_num)]
  simp
  norm_num

/-- C7: the title score is token-set based and tolerant of one title's
normalized token set being contained in the other's (any non-empty subset
configuration scores a full 100); in particular the request
"The Hard Line: A Gray Man Novel" matches the entry "The Hard Line" (same
author, threshold 0.85) with `title_score ≥ 0.85` and `is_match = true`. -/
theorem title_subset_tolerant :
    (∀ s1 s2 : List Char, sortedTokens s1 ≠ [] →
        (∀ t ∈ sortedTokens s1, t ∈ sortedTokens s2) →
        tokenSetRatioVal s1 s2 = 100) ∧
    (score (0.85) ("The Hard Line: A Gray Man Novel") ("Mark Greaney") ("The Hard Line")
        ("Mark Greaney")).is_match = true ∧
    (0.85 : ℚ) ≤ (score (0.85) ("The Hard Line: A Gray Man Novel") ("Mark Greaney")
        ("The Hard Line") ("Mark Greaney")).title_score := by
  refine ⟨tokenSetRatioVal_subset, ?_, ?_⟩
  · rw [scoreHardLine]
  · rw [scoreHardLine]
    norm_num

/-- Witness for C7's universally quantified part at concrete token lists. -/
theorem title_subset_tolerant_witness :
    tokenSetRatioVal (("the hard line").data)
      (("the hard line a gray man novel").data) = 100 :=
  title_subset_tolerant.1 (("the hard line").data)
    (("the hard line a gray man novel").data) (by decide) (by decide)

/-! ## Manual trigger (C10) -/

/-- Counterexample to C10 as stated: `trigger_manual_sync` does **not**
return void — it returns the spawned `Thread` object (sync.py line 168), a
handle whose join observes the completed run.  At a concrete store the
joined result differs from the state the caller sees at return, so the
caller did receive a handle to await completion. -/
theorem trigger_returns_thread_counterexample :
    ((trigger_manual_sync ⟨[], []⟩ (.ok []) (0.85) none 0 none).2).result =
      run_abs_sync ⟨[], []⟩ (.ok []) (0.85) none 0 ("manual") none ∧
    ((trigger_manual_sync ⟨[], []⟩ (.ok []) (0.85) none 0 none).2).result ≠
      (trigger_manual_sync ⟨[], []⟩ (.ok []) (0.85) none 0 none).1 :=
  ⟨rfl, by decide⟩

/-- C10 (amended): a manual trigger returns immediately — the store the
caller observes at return is unchanged and no failure is raised
synchronously, the run's whole effect living behind the spawned daemon
thread — but the operation returns that `Thread` handle (which can be
joined to await completion, though not to cancel) rather than void. -/
theorem trigger_manual_sync_spec :
    ∀ (st : Store) (fetch : Except String (List Item)) (threshold : ℚ)
      (loopFail : Option (Nat × String)) (now : Int) (uid : Option Nat),
      (trigger_manual_sync st fetch threshold loopFail now uid).1 = st ∧
      (trigger_manual_sync st fetch threshold loopFail now uid).2.daemon = true ∧
      (trigger_manual_sync st fetch threshold loopFail now uid).2.result =
        run_abs_sync st fetch threshold loopFail now ("manual") uid :=
  fun _ _ _ _ _ _ => ⟨rfl, rfl, rfl⟩

/-! ## The Normalizer against its spec description (C9) -/


theorem wordChar_not_ws (c : Char) (h : isWordChar c = true) : c.isWhitespace = false := by
  cases hw : c.isWhitespace
  · rfl
  · exfalso
    have hc : ((c = (' ') ∨ c = ('\t')) ∨ c = ('\r')) ∨ c = ('\n') := by
      simpa [Char.isWhitespace] using hw
    rcases hc with ((h1 | h1) | h1) | h1 <;> subst h1 <;> exact absurd h (by decide)

theorem collapse_cons_nonws (c : Char) (cs : List Char) (h : c.isWhitespace = false) :
    collapseWS (c :: cs) = c :: collapseWS cs := by
  cases cs with
  | nil => simp [collapseWS, h]
  | cons c2 r => simp [collapseWS, h]

theorem collapse_append_nonws :
    ∀ (w x : List Char), (∀ a ∈ w, a.isWhitespace = false) →
      collapseWS (w ++ x) = w ++ collapseWS x := by
  intro w
  induction w with
  | nil => intro x _; simp
  | cons a w' ih =>
    intro x h
    rw [List.cons_append, collapse_cons_nonws _ _ (h a (by simp)),
      ih x (fun b hb => h b (by simp [hb])), List.cons_append]

theorem collapse_ws_head :
    ∀ (r : List Char) (d : Char), d.isWhitespace = true →
      collapseWS (d :: r) =
        if r.dropWhile Char.isWhitespace = [] then [(' ')]
        else (' ') :: collapseWS (r.dropWhile Char.isWhitespace) := by
  intro r
  induction r with
  | nil => intro d hd; simp [collapseWS, hd]
  | cons d2 r' ih =>
    intro d hd
    by_cases h2 : d2.isWhitespace = true
    · rw [show collapseWS (d :: d2 :: r') = collapseWS (d2 :: r') from by
        simp [collapseWS, hd, h2]]
      rw [ih d2 h2]
      simp [List.dropWhile_cons, h2]
    · have h2' : d2.isWhitespace = false := by simpa using h2
      rw [show collapseWS (d :: d2 :: r') = (' ') :: collapseWS (d2 :: r') from by
        simp [collapseWS, hd, h2']]
      simp [List.dropWhile_cons, h2']

theorem strip_space_cons (x : List Char) : stripWS ((' ') :: x) = stripWS x := by
  simp [stripWS, List.dropWhile_cons]

theorem dropWhile_eq_self_of_all (p : Char → Bool) :
    ∀ (x : List Char), (∀ a ∈ x, p a = false) → x.dropWhile p = x := by
  intro x h
  cases x with
  | nil => rfl
  | cons c l => simp [List.dropWhile_cons, h c (List.mem_cons_self c l)]

theorem rstrip_cons_nonws (c : Char) (x : List Char) (h : c.isWhitespace = false) :
    rstripWS (c :: x) = c :: rstripWS x := by
  unfold rstripWS
  rw [List.reverse_cons, List.dropWhile_append]
  by_cases hx : (x.reverse.dropWhile Char.isWhitespace).isEmpty = true
  · rw [if_pos hx]
    rw [show List.dropWhile Char.isWhitespace [c] = [c] from by
      simp [List.dropWhile_cons, h]]
    have he : x.reverse.dropWhile Char.isWhitespace = [] := by
      simpa [List.isEmpty_iff] using hx
    simp [he]
  · rw [if_neg hx]
    simp [List.reverse_append]

theorem strip_cons_nonws (c : Char) (x : List Char) (h : c.isWhitespace = false) :
    stripWS (c :: x) = c :: rstripWS x := by
  unfold stripWS
  rw [List.dropWhile_cons, if_neg (by simp [h])]
  exact rstrip_cons_nonws c x h

theorem rstrip_all_nonws (w : List Char) (h : ∀ a ∈ w, a.isWhitespace = false) :
    rstripWS w = w := by
  unfold rstripWS
  rw [dropWhile_eq_self_of_all _ _ (fun a ha => h a (List.mem_reverse.mp ha))]
  exact List.reverse_reverse w

theorem rstrip_append_space (w : List Char) (h : ∀ a ∈ w, a.isWhitespace = false) :
    rstripWS (w ++ [(' ')]) = w := by
  unfold rstripWS
  rw [List.reverse_append]
  rw [show ([(' ')] : List Char).reverse = [(' ')] from rfl]
  rw [List.singleton_append, List.dropWhile_cons, if_pos (by decide)]
  rw [dropWhile_eq_self_of_all _ _ (fun a ha => h a (List.mem_reverse.mp ha))]
  exact List.reverse_reverse w

theorem rstrip_ne_nil (c : Char) (x : List Char) (h : c.isWhitespace = false) :
    rstripWS (c :: x) ≠ [] := by
  rw [rstrip_cons_nonws c x h]
  simp

theorem rstrip_append_of_ne (a z : List Char) (h : rstripWS z ≠ []) :
    rstripWS (a ++ z) = a ++ rstripWS z := by
  unfold rstripWS at h ⊢
  rw [List.reverse_append, List.dropWhile_append]
  have hz : (z.reverse.dropWhile Char.isWhitespace).isEmpty = false := by
    cases hd : z.reverse.dropWhile Char.isWhitespace with
    | nil => exact absurd (by rw [hd]; rfl) h
    | cons _ _ => rfl
  simp only [hz, Bool.false_eq_true, if_false]
  rw [List.reverse_append, List.reverse_reverse]



theorem runsBy_cons_pos (p : Char → Bool) (c : Char) (cs : List Char) (h : p c = true) :
    runsBy p (c :: cs) = (c :: cs.takeWhile p) :: runsBy p (cs.dropWhile p) := by
  simp [runsBy, h]

theorem runsBy_cons_neg (p : Char → Bool) (c : Char) (cs : List Char) (h : p c = false) :
    runsBy p (c :: cs) = runsBy p cs := by
  simp [runsBy, h]

theorem dropWhile_head_not (p : Char → Bool) :
    ∀ (l : List Char) (d : Char) (r : List Char), l.dropWhile p = d :: r → p d = false := by
  intro l
  induction l with
  | nil => intro d r h; simp [List.dropWhile] at h
  | cons c l' ih =>
    intro d r h
    rw [List.dropWhile_cons] at h
    by_cases hc : p c = true
    · rw [if_pos hc] at h
      exact ih d r h
    · rw [if_neg hc] at h
      cases h
      simpa using hc

theorem runsBy_dropWhile_ws :
    ∀ (x : List Char),
      runsBy (fun c => !c.isWhitespace) x =
        runsBy (fun c => !c.isWhitespace) (x.dropWhile Char.isWhitespace) := by
  intro x
  induction x with
  | nil => rfl
  | cons c x' ih =>
    by_cases hc : c.isWhitespace = true
    · rw [runsBy_cons_neg _ _ _ (by simp [hc]), List.dropWhile_cons, if_pos hc]
      exact ih
    · rw [List.dropWhile_cons, if_neg hc]

theorem runsBy_ws_nil (x : List Char) (h : x.dropWhile Char.isWhitespace = []) :
    runsBy (fun c => !c.isWhitespace) x = [] := by
  rw [runsBy_dropWhile_ws, h]
  simp [runsBy]

/-- Collapsing whitespace runs and trimming produces exactly the non-space
runs joined by single spaces — the spec's description of the Normalizer
output. -/
theorem stripCollapse_eq_joinRuns (t : List Char) :
    stripWS (collapseWS t) = joinSp (runsBy (fun c => !c.isWhitespace) t) := by
  suffices H : ∀ (n : Nat) (t : List Char), t.length ≤ n →
      stripWS (collapseWS t) = joinSp (runsBy (fun c => !c.isWhitespace) t) from
    H t.length t le_rfl
  intro n
  induction n with
  | zero =>
    intro t ht
    have hnil : t = [] := List.eq_nil_of_length_eq_zero (Nat.le_zero.mp ht)
    subst hnil
    simp [collapseWS, stripWS, runsBy, joinSp]
  | succ n ih =>
    intro t ht
    cases t with
    | nil => simp [collapseWS, stripWS, runsBy, joinSp]
    | cons c cs =>
      have hlc : cs.length ≤ n := Nat.le_of_succ_le_succ ht
      by_cases hw : c.isWhitespace = true
      · have h1 : stripWS (collapseWS (c :: cs)) = stripWS (collapseWS cs) := by
          cases cs with
          | nil =>
            rw [show collapseWS [c] = [(' ')] from by simp [collapseWS, hw]]
            rfl
          | cons c2 r =>
            by_cases hw2 : c2.isWhitespace = true
            · rw [show collapseWS (c :: c2 :: r) = collapseWS (c2 :: r) from by
                simp [collapseWS, hw, hw2]]
            · have hw2' : c2.isWhitespace = false := by simpa using hw2
              rw [show collapseWS (c :: c2 :: r) = (' ') :: collapseWS (c2 :: r) from by
                simp [collapseWS, hw, hw2'], strip_space_cons]
        rw [h1, runsBy_cons_neg _ _ _ (by simp [hw])]
        exact ih cs hlc
      · have hw' : c.isWhitespace = false := by simpa using hw
        have hWnws : ∀ a ∈ cs.takeWhile (fun x => !x.isWhitespace),
            a.isWhitespace = false := by
          intro a ha
          have := List.mem_takeWhile_imp ha
          simpa using this
        have hcWnws : ∀ a ∈ c :: cs.takeWhile (fun x => !x.isWhitespace),
            a.isWhitespace = false := by
          intro a ha
          rcases List.mem_cons.mp ha with rfl | ha
          · exact hw'
          · exact hWnws a ha
        have hsplit : c :: cs =
            (c :: cs.takeWhile (fun x => !x.isWhitespace)) ++
              cs.dropWhile (fun x => !x.isWhitespace) := by
          rw [List.cons_append, List.takeWhile_append_dropWhile]
        have hcol : collapseWS (c :: cs) =
            (c :: cs.takeWhile (fun x => !x.isWhitespace)) ++
              collapseWS (cs.dropWhile (fun x => !x.isWhitespace)) := by
          conv_lhs => rw [hsplit]
          exact collapse_append_nonws _ _ hcWnws
        have hruns := runsBy_cons_pos (fun x => !x.isWhitespace) c cs (by simp [hw'])
        have hlenR : (cs.dropWhile (fun x => !x.isWhitespace)).length ≤ cs.length :=
          (List.dropWhile_sublist _).length_le
        rw [hcol, hruns]
        cases hRc : cs.dropWhile (fun x => !x.isWhitespace) with
        | nil =>
          rw [show collapseWS ([] : List Char) = [] from rfl, List.append_nil]
          rw [strip_cons_nonws c _ hw', rstrip_all_nonws _ hWnws]
          rw [show runsBy (fun x => !x.isWhitespace) ([] : List Char) = [] from by
            simp [runsBy]]
          rfl
        | cons d R' =>
          rw [hRc] at hlenR
          have hd : d.isWhitespace = true := by
            have hnot := dropWhile_head_not (fun x => !x.isWhitespace) cs d R' hRc
            simpa using hnot
          rw [collapse_ws_head R' d hd]
          cases hS : R'.dropWhile Char.isWhitespace with
          | nil =>
            rw [if_pos rfl]
            rw [List.cons_append, strip_cons_nonws c _ hw', rstrip_append_space _ hWnws]
            rw [runsBy_cons_neg (fun x => !x.isWhitespace) d R' (by simp [hd]),
              runsBy_ws_nil R' hS]
            rfl
          | cons e S' =>
            have he : e.isWhitespace = false :=
              dropWhile_head_not Char.isWhitespace R' e S' hS
            rw [if_neg (by simp)]
            have hlen2 : (e :: S').length ≤ n := by
              have h3 : (e :: S').length ≤ R'.length :=
                hS ▸ (List.dropWhile_sublist _).length_le
              have h4 : R'.length + 1 ≤ cs.length := by
                simpa using hlenR
              omega
            rw [collapse_cons_nonws e S' he]
            rw [show (c :: cs.takeWhile (fun x => !x.isWhitespace)) ++
                (' ') :: e :: collapseWS S' =
                c :: ((cs.takeWhile (fun x => !x.isWhitespace) ++ [(' ')]) ++
                  (e :: collapseWS S')) from by simp]
            rw [strip_cons_nonws c _ hw']
            rw [rstrip_append_of_ne _ _ (rstrip_ne_nil e _ he)]
            rw [show e :: collapseWS S' = collapseWS (e :: S') from
              (collapse_cons_nonws e S' he).symm]
            rw [show rstripWS (collapseWS (e :: S')) = stripWS (collapseWS (e :: S')) from by
              rw [collapse_cons_nonws e S' he, strip_cons_nonws e _ he,
                rstrip_cons_nonws e _ he]]
            rw [ih (e :: S') hlen2]
            rw [runsBy_cons_neg (fun x => !x.isWhitespace) d R' (by simp [hd]),
              runsBy_dropWhile_ws R', hS]
            rw [runsBy_cons_pos (fun x => !x.isWhitespace) e S' (by simp [he])]
            simp [joinSp]



theorem runsBy_map_congr (p q : Char → Bool) (f : Char → Char)
    (hpq : ∀ c, p (f c) = q c) (hid : ∀ c, q c = true → f c = c) :
    ∀ u : List Char, runsBy p (u.map f) = runsBy q u := by
  suffices H : ∀ (n : Nat) (u : List Char), u.length ≤ n →
      runsBy p (u.map f) = runsBy q u from fun u => H u.length u le_rfl
  intro n
  induction n with
  | zero =>
    intro u hu
    have hnil : u = [] := List.eq_nil_of_length_eq_zero (Nat.le_zero.mp hu)
    subst hnil
    simp [runsBy]
  | succ n ih =>
    intro u hu
    cases u with
    | nil => simp [runsBy]
    | cons c cs =>
      by_cases hq : q c = true
      · rw [List.map_cons, runsBy_cons_pos p (f c) _ (by rw [hpq]; exact hq),
          runsBy_cons_pos q c cs hq]
        rw [hid c hq]
        rw [List.takeWhile_map, List.dropWhile_map]
        rw [show (p ∘ f) = q from funext hpq]
        congr 1
        · congr 1
          calc (List.takeWhile q cs).map f
              = (List.takeWhile q cs).map id :=
                List.map_congr_left fun a ha => hid a (List.mem_takeWhile_imp ha)
            _ = List.takeWhile q cs := List.map_id _
        · exact ih _ (le_trans (List.dropWhile_sublist _).length_le
            (Nat.le_of_succ_le_succ hu))
      · have hq' : q c = false := by simpa using hq
        rw [List.map_cons, runsBy_cons_neg p (f c) _ (by rw [hpq]; exact hq'),
          runsBy_cons_neg q c cs hq']
        exact ih cs (Nat.le_of_succ_le_succ hu)

theorem subChar_ws (c : Char) :
    (!((if !(isWordChar c) && !c.isWhitespace then (' ') else c).isWhitespace))
      = isWordChar c := by
  by_cases hword : isWordChar c = true
  · simp [hword, wordChar_not_ws c hword]
  · have hw' : isWordChar c = false := by simpa using hword
    by_cases hws : c.isWhitespace = true
    · simp [hw', hws]
    · have hws' : c.isWhitespace = false := by simpa using hws
      simp [hw', hws']

theorem subChar_id (c : Char) (h : isWordChar c = true) :
    (if !(isWordChar c) && !c.isWhitespace then (' ') else c) = c := by
  simp [h]

/-- C9 (amended): the Normalizer equals the spec formula with "word
character" (alphanumeric or underscore, the regex `\w` class) in place of
"alphanumeric": lowercased maximal word-character runs joined by single
spaces, i.e. every non-word non-whitespace character acts as a space,
whitespace collapses, ends are trimmed; empty input yields the empty
string, and the function is pure and total. -/
theorem normalize_eq_specWord : ∀ s : String, normalize s = specNormalizeWord s := by
  intro s
  unfold normalize specNormalizeWord normalizeL
  by_cases hd : s.data = []
  · rw [if_pos hd, hd]
    rw [show joinSp (runsBy isWordChar (pyLower ([] : List Char))) = [] from by
      simp [pyLower, runsBy, joinSp]]
  · rw [if_neg hd]
    congr 1
    rw [stripCollapse_eq_joinRuns]
    congr 1
    exact runsBy_map_congr _ isWordChar _ subChar_ws subChar_id (pyLower s.data)

/-- Counterexample to C9 as stated: the code's regex `[^\w\s]` keeps
underscores (`\w` contains `_`), while the claim's "every non-alphanumeric,
non-whitespace character is replaced by a space" would turn `_` into a
space: on input `"a_b"` the code returns `"a_b"` but the claim's formula
gives `"a b"`. -/
theorem normalize_spec_counterexample :
    normalize ("a_b") ≠ specNormalizeAlnum ("a_b") ∧
    normalize ("a_b") = ("a_b") ∧
    specNormalizeAlnum ("a_b") = ("a b") := by
  have h3 : specNormalizeAlnum ("a_b") = ("a b") := by
    unfold specNormalizeAlnum
    rw [show pyLower (("a_b").data) = ('a') :: ('_') :: ('b') :: [] from by decide]
    rw [runsBy_cons_pos Char.isAlphanum ('a') _ (by decide)]
    rw [show List.takeWhile Char.isAlphanum [('_'), ('b')] = [] from by decide,
      show List.dropWhile Char.isAlphanum [('_'), ('b')] = [('_'), ('b')] from by decide]
    rw [runsBy_cons_neg Char.isAlphanum ('_') _ (by decide)]
    rw [runsBy_cons_pos Char.isAlphanum ('b') _ (by decide)]
    rw [show runsBy Char.isAlphanum (List.dropWhile Char.isAlphanum ([] : List Char))
        = [] from by simp [runsBy]]
    decide
  have h2 : normalize ("a_b") = ("a_b") := by decide
  exact ⟨by rw [h2, h3]; decide, h2, h3⟩


end AbsRequest
